import Mathlib

set_option maxRecDepth 100000

/-!
Shallow embedding of the VGA text-buffer driver (src/src/vga_buffer.rs) and
verification of its specification.

Bytes are modelled as `Nat` values (the relevant arithmetic never overflows a
u8, and where the source computes a u8 the result is reduced mod 256).  The
video buffer is modelled as a total function from row and column indices to
screen characters; the volatile cell writes of the source become pointwise
functional updates, and the source's `for` loops become left folds over the
same index ranges, in the same order.
-/

namespace VgaBuffer

/-- Color: the sixteen VGA colors of the source enum, stored as u8
discriminants 0..15. -/
inductive Color where
  | Black
  | Blue
  | Green
  | Cyan
  | Red
  | Magenta
  | Brown
  | LightGray
  | DarkGray
  | LightBlue
  | LightGreen
  | LightCyan
  | LightRed
  | Pink
  | Yellow
  | White
deriving DecidableEq

/-- Numeric (u8) value of each Color, matching the discriminants assigned in
the source. -/
def Color.toU8 : Color → Nat
  | .Black => 0
  | .Blue => 1
  | .Green => 2
  | .Cyan => 3
  | .Red => 4
  | .Magenta => 5
  | .Brown => 6
  | .LightGray => 7
  | .DarkGray => 8
  | .LightBlue => 9
  | .LightGreen => 10
  | .LightCyan => 11
  | .LightRed => 12
  | .Pink => 13
  | .Yellow => 14
  | .White => 15

/-- ColorCode: a single byte holding background and foreground color, as in
the source's repr-transparent newtype over u8. -/
structure ColorCode where
  val : Nat
deriving DecidableEq

/-- ColorCode.new from the source: background shifted left 4, or-ed with the
foreground; the result is a u8, so it is reduced mod 256. -/
def ColorCode.new (foreground background : Color) : ColorCode :=
  ⟨((background.toU8 <<< 4) ||| foreground.toU8) % 256⟩

/-- ScreenChar from the source: one displayable byte plus one color byte. -/
structure ScreenChar where
  ascii_character : Nat
  color_code : ColorCode
deriving DecidableEq

/-- BUFFER_HEIGHT from the source: 25 rows. -/
abbrev BUFFER_HEIGHT : Nat := 25

/-- BUFFER_WIDTH from the source: 80 columns. -/
abbrev BUFFER_WIDTH : Nat := 80

/-- Buffer: the VGA character grid, modelled as a total function from row and
column to the cell content. -/
abbrev Buffer := Nat → Nat → ScreenChar

/-- Volatile cell write of the source, as a pointwise functional update. -/
def Buffer.writeCell (b : Buffer) (row col : Nat) (v : ScreenChar) : Buffer :=
  fun r c => if r = row ∧ c = col then v else b r c

/-- Volatile cell read of the source. -/
def Buffer.readCell (b : Buffer) (row col : Nat) : ScreenChar :=
  b row col

/-- Writer from the source: cursor column in the bottom row, current color,
and the buffer. -/
structure Writer where
  column_position : Nat
  color_code : ColorCode
  buffer : Buffer

/-- Writer.clear_row from the source: write a blank cell (space, current
color) into every column of the given row, in increasing column order. -/
def Writer.clear_row (w : Writer) (row : Nat) : Writer :=
  let blank : ScreenChar := { ascii_character := 32, color_code := w.color_code }
  { w with
    buffer :=
      (List.range BUFFER_WIDTH).foldl (fun b col => b.writeCell row col blank) w.buffer }

/-- Writer.new_line from the source: for each row 1..24 in increasing order,
copy every cell of that row into the row above (reading the buffer as it
stands at that point, exactly like the source's volatile read), then clear
row 24 and reset the column to 0. -/
def Writer.new_line (w : Writer) : Writer :=
  let scrolled : Writer :=
    { w with
      buffer :=
        (List.range' 1 (BUFFER_HEIGHT - 1)).foldl
          (fun b row =>
            (List.range BUFFER_WIDTH).foldl
              (fun b2 col => b2.writeCell (row - 1) col (b2.readCell row col)) b)
          w.buffer }
  let cleared := scrolled.clear_row (BUFFER_HEIGHT - 1)
  { cleared with column_position := 0 }

/-- Writer.write_byte from the source: a newline byte invokes new_line;
any other byte first scrolls if the column has reached the width, then is
written at row 24 at the (possibly reset) column, and the column is
incremented. -/
def Writer.write_byte (w : Writer) (byte : Nat) : Writer :=
  if byte = 10 then
    w.new_line
  else
    let w1 := if w.column_position ≥ BUFFER_WIDTH then w.new_line else w
    let row := BUFFER_HEIGHT - 1
    let col := w1.column_position
    let color_code := w1.color_code
    { w1 with
      buffer := w1.buffer.writeCell row col { ascii_character := byte, color_code := color_code },
      column_position := w1.column_position + 1 }

/-- Writer.write_string from the source: iterate the bytes in order; a byte
in the printable range 0x20..0x7e or the newline byte is forwarded to
write_byte unchanged, every other byte is forwarded as 0xfe. -/
def Writer.write_string (w : Writer) (s : List Nat) : Writer :=
  s.foldl
    (fun acc byte =>
      if (0x20 ≤ byte ∧ byte ≤ 0x7e) ∨ byte = 10 then acc.write_byte byte
      else acc.write_byte 0xfe)
    w

/-- Writer.write_str from the source (fmt::Write impl): forwards to
write_string and returns Ok. The Except component models fmt::Result. -/
def Writer.write_str (w : Writer) (s : List Nat) : Writer × Except Unit Unit :=
  (w.write_string s, Except.ok ())

/-- The _print entry point from the source: calls write_str through the
global writer and unwraps the result; an Err result would panic, modelled
as none. -/
def print_entry (w : Writer) (args : List Nat) : Option Writer :=
  match w.write_str args with
  | (w2, Except.ok _) => some w2
  | (_, Except.error _) => none

/-- Default color of the global WRITER in the source: yellow on black. -/
def yellowOnBlack : ColorCode := ColorCode.new Color.Yellow Color.Black

/-- Blank cell: a space in the default color. -/
def blankCell : ScreenChar := { ascii_character := 32, color_code := yellowOnBlack }

/-- Initial writer state of the global WRITER (column 0, yellow on black),
over a freshly cleared grid as assumed by the spec's concrete scenarios. -/
def initialWriter : Writer :=
  { column_position := 0, color_code := yellowOnBlack, buffer := fun _ _ => blankCell }

/-- Number of scroll (new_line) invocations performed while writing the given
byte sequence through write_byte, following the branch conditions of
write_byte in the source. -/
def Writer.scrolls_in : Writer → List Nat → Nat
  | _, [] => 0
  | w, b :: rest =>
      (if b = 10 ∨ 80 ≤ w.column_position then 1 else 0) + (w.write_byte b).scrolls_in rest

/-- Writer states reachable from an initial state (column 0) by any sequence
of write_byte and write_string operations. -/
inductive Reachable : Writer → Prop
  | init (w : Writer) : w.column_position = 0 → Reachable w
  | step_byte (w : Writer) (b : Nat) : Reachable w → Reachable (w.write_byte b)
  | step_string (w : Writer) (s : List Nat) : Reachable w → Reachable (w.write_string s)

/-- Byte sequence of the literal string used by the spec's concrete
scenario, the ASCII bytes of the text Hello World with a bang. -/
def helloBytes : List Nat := [72, 101, 108, 108, 111, 32, 87, 111, 114, 108, 100, 33]

/-- Pointwise evaluation of a cell write. -/
lemma Buffer.writeCell_eval (b : Buffer) (row col : Nat) (v : ScreenChar) (r c : Nat) :
    b.writeCell row col v r c = if r = row ∧ c = col then v else b r c := rfl

/-- A new_line resets the column to 0. -/
lemma Writer.new_line_column (w : Writer) : w.new_line.column_position = 0 := rfl

/-- A new_line leaves the color code unchanged. -/
lemma Writer.new_line_color (w : Writer) : w.new_line.color_code = w.color_code := rfl

/-- Filling a whole row with a fixed cell, as the inner loop of clear_row does. -/
lemma foldl_writeCell_const (b : Buffer) (row : Nat) (v : ScreenChar) (n : Nat) (r c : Nat) :
    ((List.range n).foldl (fun bb col => bb.writeCell row col v) b) r c =
      if r = row ∧ c < n then v else b r c := by
  induction n with
  | zero => simp
  | succ n ih =>
    rw [List.range_succ, List.foldl_append, List.foldl_cons, List.foldl_nil]
    show (if r = row ∧ c = n then v
          else ((List.range n).foldl (fun bb col => bb.writeCell row col v) b) r c) = _
    rw [ih]
    split_ifs <;> first | rfl | omega

/-- Copying one row into the row above it, as the inner loop of new_line does:
only the destination row changes, and the source row is read unmodified. -/
lemma foldl_copyRow (b : Buffer) (row : Nat) (hrow : 1 ≤ row) (n : Nat) :
    ∀ r c,
      ((List.range n).foldl
        (fun b2 col => b2.writeCell (row - 1) col (b2.readCell row col)) b) r c =
        if r = row - 1 ∧ c < n then b row c else b r c := by
  induction n with
  | zero => simp
  | succ n ih =>
    intro r c
    rw [List.range_succ, List.foldl_append, List.foldl_cons, List.foldl_nil]
    show (if r = row - 1 ∧ c = n then
            ((List.range n).foldl
              (fun b2 col => b2.writeCell (row - 1) col (b2.readCell row col)) b) row n
          else
            ((List.range n).foldl
              (fun b2 col => b2.writeCell (row - 1) col (b2.readCell row col)) b) r c) = _
    rw [ih row n, ih r c]
    by_cases h1 : r = row - 1
    · by_cases h2 : c = n
      · subst h2
        rw [if_pos ⟨h1, rfl⟩, if_neg (by omega), if_pos ⟨h1, by omega⟩]
      · by_cases h3 : c < n
        · rw [if_neg (by omega), if_pos ⟨h1, h3⟩, if_pos ⟨h1, by omega⟩]
        · rw [if_neg (by omega), if_neg (by omega), if_neg (by omega)]
    · rw [if_neg (by omega), if_neg (by omega), if_neg (by omega)]

/-- The whole scroll pass of new_line: after processing rows 1..K in
increasing order, rows below K hold the content of the row that was one
further down, and everything else is unchanged. -/
lemma foldl_copyAll (b : Buffer) (K : Nat) :
    ∀ r c,
      ((List.range' 1 K).foldl
        (fun bb row =>
          (List.range 80).foldl
            (fun b2 col => b2.writeCell (row - 1) col (b2.readCell row col)) bb) b) r c =
        if r < K ∧ c < 80 then b (r + 1) c else b r c := by
  induction K with
  | zero => simp
  | succ K ih =>
    intro r c
    rw [List.range'_1_concat, List.foldl_append, List.foldl_cons, List.foldl_nil]
    show ((List.range 80).foldl
        (fun b2 col => b2.writeCell ((1 + K) - 1) col (b2.readCell (1 + K) col))
        ((List.range' 1 K).foldl
          (fun bb row =>
            (List.range 80).foldl
              (fun b2 col => b2.writeCell (row - 1) col (b2.readCell row col)) bb) b)) r c = _
    rw [foldl_copyRow _ (1 + K) (by omega) 80 r c, ih (1 + K) c, ih r c]
    rw [show (1 + K) - 1 = K from by omega]
    split_ifs with h1 h2 h3 <;>
      first
        | rfl
        | omega
        | (obtain ⟨hrK, hc⟩ := h1; subst hrK; rw [Nat.add_comm])

/-- Pointwise description of the buffer after new_line: row 24 becomes blank
in the current color, rows 0..23 receive the previous content of the row one
further down, and out-of-range indices are untouched. -/
lemma Writer.new_line_buffer (w : Writer) (r c : Nat) :
    w.new_line.buffer r c =
      if r = 24 ∧ c < 80 then { ascii_character := 32, color_code := w.color_code }
      else if r < 24 ∧ c < 80 then w.buffer (r + 1) c
      else w.buffer r c := by
  have key : w.new_line.buffer r c =
      ((List.range 80).foldl
        (fun bb col => bb.writeCell 24 col { ascii_character := 32, color_code := w.color_code })
        ((List.range' 1 24).foldl
          (fun bb row =>
            (List.range 80).foldl
              (fun b2 col => b2.writeCell (row - 1) col (b2.readCell row col)) bb)
          w.buffer)) r c := rfl
  rw [key, foldl_writeCell_const, foldl_copyAll]

/-- Behavior of write_byte on a newline byte: it is exactly new_line. -/
lemma Writer.write_byte_newline (w : Writer) : w.write_byte 10 = w.new_line := rfl

/-- Behavior of write_byte on a non-newline byte when the column has not
reached the width: the byte is placed at (24, column) in the current color
and the column is incremented. -/
lemma Writer.write_byte_no_scroll (w : Writer) (b : Nat) (hb : b ≠ 10)
    (hcol : w.column_position < 80) :
    w.write_byte b =
      { w with
        buffer := w.buffer.writeCell 24 w.column_position
          { ascii_character := b, color_code := w.color_code },
        column_position := w.column_position + 1 } := by
  simp only [Writer.write_byte, if_neg hb,
    if_neg (show ¬ w.column_position ≥ BUFFER_WIDTH by simp only [BUFFER_WIDTH]; omega)]
  rfl

/-- Behavior of write_byte on a non-newline byte when the column has reached
the width: a scroll happens first, then the byte is placed at (24, 0) in the
current color, and the column becomes 1. -/
lemma Writer.write_byte_scroll (w : Writer) (b : Nat) (hb : b ≠ 10)
    (hcol : 80 ≤ w.column_position) :
    w.write_byte b =
      { w.new_line with
        buffer := w.new_line.buffer.writeCell 24 0
          { ascii_character := b, color_code := w.color_code },
        column_position := 1 } := by
  simp only [Writer.write_byte, if_neg hb,
    if_pos (show w.column_position ≥ BUFFER_WIDTH by simp only [BUFFER_WIDTH]; omega)]
  rfl

/-- write_string on the empty byte sequence does nothing. -/
lemma Writer.write_string_nil (w : Writer) : w.write_string [] = w := rfl

/-- write_string forwards a printable or newline head byte unchanged. -/
lemma Writer.write_string_cons_printable (w : Writer) (b : Nat) (rest : List Nat)
    (h : (0x20 ≤ b ∧ b ≤ 0x7e) ∨ b = 10) :
    w.write_string (b :: rest) = (w.write_byte b).write_string rest := by
  simp only [Writer.write_string, List.foldl_cons, if_pos h]

/-- write_string replaces any other head byte by 0xfe before forwarding. -/
lemma Writer.write_string_cons_other (w : Writer) (b : Nat) (rest : List Nat)
    (h : ¬ ((0x20 ≤ b ∧ b ≤ 0x7e) ∨ b = 10)) :
    w.write_string (b :: rest) = (w.write_byte 0xfe).write_string rest := by
  simp only [Writer.write_string, List.foldl_cons, if_neg h]

/-- Writing a run of non-newline bytes that fits in the remaining width:
the column advances by the length, the color is unchanged, and the bytes
land in row 24 starting at the initial column; everything else is
untouched. -/
lemma Writer.foldl_write_byte_fits (bs : List Nat) :
    ∀ w : Writer, (∀ b ∈ bs, b ≠ 10) → w.column_position + bs.length ≤ 80 →
      (bs.foldl Writer.write_byte w).column_position = w.column_position + bs.length ∧
      (bs.foldl Writer.write_byte w).color_code = w.color_code ∧
      ∀ r c, (bs.foldl Writer.write_byte w).buffer r c =
        if r = 24 ∧ w.column_position ≤ c ∧ c < w.column_position + bs.length then
          { ascii_character := bs.getD (c - w.column_position) 0,
            color_code := w.color_code }
        else w.buffer r c := by
  induction bs with
  | nil =>
      intro w hnl hfit
      refine ⟨rfl, rfl, fun r c => ?_⟩
      have hne : ¬ (r = 24 ∧ w.column_position ≤ c ∧
          c < w.column_position + ([] : List Nat).length) := by
        simp only [List.length_nil]
        omega
      rw [List.foldl_nil, if_neg hne]
  | cons b rest ih =>
      intro w hnl hfit
      have hb10 : b ≠ 10 := hnl b (List.mem_cons_self b rest)
      have hlen : (b :: rest).length = rest.length + 1 := List.length_cons b rest
      have hcol : w.column_position < 80 := by rw [hlen] at hfit; omega
      rw [List.foldl_cons, Writer.write_byte_no_scroll w b hb10 hcol]
      set W1 : Writer :=
        { w with
          buffer := w.buffer.writeCell 24 w.column_position
            { ascii_character := b, color_code := w.color_code },
          column_position := w.column_position + 1 } with hW1
      have e1 : W1.column_position = w.column_position + 1 := rfl
      have e2 : W1.color_code = w.color_code := rfl
      have e3 : ∀ r c, W1.buffer r c =
          if r = 24 ∧ c = w.column_position then
            { ascii_character := b, color_code := w.color_code }
          else w.buffer r c := fun r c => rfl
      obtain ⟨ih1, ih2, ih3⟩ :=
        ih W1 (fun x hx => hnl x (List.mem_cons_of_mem b hx))
          (by rw [e1]; rw [hlen] at hfit; omega)
      refine ⟨?_, ?_, ?_⟩
      · rw [ih1, e1, hlen]; omega
      · rw [ih2, e2]
      · intro r c
        rw [ih3 r c, e1, e2, e3 r c, hlen]
        by_cases h1 : r = 24
        · subst h1
          by_cases h2 : c = w.column_position
          · subst h2
            rw [if_neg (by omega), if_pos ⟨rfl, rfl⟩,
              if_pos (show (24 : Nat) = 24 ∧ w.column_position ≤ w.column_position ∧
                w.column_position < w.column_position + (rest.length + 1) from
                ⟨rfl, Nat.le_refl _, by omega⟩)]
            rw [Nat.sub_self]
            rfl
          · by_cases h3 : w.column_position + 1 ≤ c ∧ c < w.column_position + 1 + rest.length
            · rw [if_pos ⟨rfl, h3.1, h3.2⟩,
                if_pos (show (24 : Nat) = 24 ∧ w.column_position ≤ c ∧
                  c < w.column_position + (rest.length + 1) from ⟨rfl, by omega, by omega⟩)]
              have hsub : c - w.column_position = (c - (w.column_position + 1)) + 1 := by omega
              rw [hsub, List.getD_cons_succ]
            · rw [if_neg (by omega), if_neg (by omega), if_neg (by omega)]
        · rw [if_neg (by omega), if_neg (by omega), if_neg (by omega)]

/-- On a byte sequence of printable or newline bytes, write_string is the
plain left fold of write_byte (no substitution happens). -/
lemma Writer.write_string_printable (bs : List Nat) :
    ∀ w : Writer, (∀ b ∈ bs, (0x20 ≤ b ∧ b ≤ 0x7e) ∨ b = 10) →
      w.write_string bs = bs.foldl Writer.write_byte w := by
  induction bs with
  | nil => intro w _; rfl
  | cons b rest ih =>
      intro w h
      rw [Writer.write_string_cons_printable w b rest (h b (List.mem_cons_self b rest)),
        List.foldl_cons]
      exact ih _ (fun x hx => h x (List.mem_cons_of_mem b hx))

/-- A run of non-newline bytes that fits in the remaining width causes no
scroll. -/
lemma Writer.scrolls_in_zero (bs : List Nat) :
    ∀ w : Writer, (∀ b ∈ bs, b ≠ 10) → w.column_position + bs.length ≤ 80 →
      w.scrolls_in bs = 0 := by
  induction bs with
  | nil => intro w _ _; rfl
  | cons b rest ih =>
      intro w hnl hfit
      have hb10 : b ≠ 10 := hnl b (List.mem_cons_self b rest)
      have hcol : w.column_position < 80 := by rw [List.length_cons] at hfit; omega
      show (if b = 10 ∨ 80 ≤ w.column_position then 1 else 0) +
        (w.write_byte b).scrolls_in rest = 0
      rw [if_neg (by omega), Nat.zero_add, Writer.write_byte_no_scroll w b hb10 hcol]
      exact ih _ (fun x hx => hnl x (List.mem_cons_of_mem b hx))
        (by
          show w.column_position + 1 + rest.length ≤ 80
          rw [List.length_cons] at hfit
          omega)

/-- Scroll counting splits over concatenation of the byte sequence. -/
lemma Writer.scrolls_in_append (l1 l2 : List Nat) :
    ∀ w : Writer,
      w.scrolls_in (l1 ++ l2) = w.scrolls_in l1 + (l1.foldl Writer.write_byte w).scrolls_in l2 := by
  induction l1 with
  | nil => intro w; simp [Writer.scrolls_in]
  | cons b rest ih =>
      intro w
      simp only [List.cons_append, Writer.scrolls_in, List.foldl_cons, List.append_eq]
      rw [ih (w.write_byte b)]
      omega

/-- A write_byte keeps the column at or below 80 when it started there. -/
lemma Writer.write_byte_column_le (w : Writer) (b : Nat) (h : w.column_position ≤ 80) :
    (w.write_byte b).column_position ≤ 80 := by
  by_cases hb : b = 10
  · subst hb
    rw [Writer.write_byte_newline, Writer.new_line_column]
    omega
  · by_cases hcol : 80 ≤ w.column_position
    · rw [Writer.write_byte_scroll w b hb hcol]
      show (1 : Nat) ≤ 80
      omega
    · rw [Writer.write_byte_no_scroll w b hb (by omega)]
      show w.column_position + 1 ≤ 80
      omega

/-- A write_string keeps the column at or below 80 when it started there. -/
lemma Writer.write_string_column_le (s : List Nat) :
    ∀ w : Writer, w.column_position ≤ 80 → (w.write_string s).column_position ≤ 80 := by
  induction s with
  | nil => intro w h; exact h
  | cons b rest ih =>
      intro w h
      by_cases hb : (0x20 ≤ b ∧ b ≤ 0x7e) ∨ b = 10
      · rw [Writer.write_string_cons_printable w b rest hb]
        exact ih _ (Writer.write_byte_column_le w b h)
      · rw [Writer.write_string_cons_other w b rest hb]
        exact ih _ (Writer.write_byte_column_le w 0xfe h)

/-- Indexing into a replicate list below its length yields the repeated
element. -/
lemma replicate_getD (a d : Nat) : ∀ n i : Nat, i < n → (List.replicate n a).getD i d = a := by
  intro n
  induction n with
  | zero => intro i h; omega
  | succ n ih =>
      intro i h
      cases i with
      | zero => rfl
      | succ j =>
          rw [List.replicate_succ, List.getD_cons_succ]
          exact ih j (by omega)

/-- Every byte of a replicate of the letter A is printable and not a
newline. -/
lemma replicate_A_printable :
    ∀ b ∈ List.replicate 80 65, (0x20 ≤ b ∧ b ≤ 0x7e) ∨ b = 10 := by
  intro b hb
  rw [List.eq_of_mem_replicate hb]
  left
  exact ⟨by omega, by omega⟩

/-- No byte of a replicate of the letter A is a newline. -/
lemma replicate_A_not_newline : ∀ b ∈ List.replicate 80 65, b ≠ 10 := by
  intro b hb
  rw [List.eq_of_mem_replicate hb]
  omega

/-- After writing eighty A bytes from the initial state the column is 80. -/
lemma col_after_80 :
    (initialWriter.write_string (List.replicate 80 65)).column_position = 80 := by
  rw [Writer.write_string_printable _ initialWriter replicate_A_printable]
  have h := (Writer.foldl_write_byte_fits (List.replicate 80 65) initialWriter
    replicate_A_not_newline (by decide)).1
  rw [h]
  rfl

/-- C1: write_byte on the newline byte performs scroll-and-reset
unconditionally; on any other byte it scrolls first exactly when the column
has reached 80, then writes the byte with the writer's current ColorCode at
row 24 in the current (possibly just reset) column, and increments the
column by 1. -/
theorem C1_write_byte_cases (w : Writer) (b : Nat) :
    (b = 10 → w.write_byte b = w.new_line) ∧
    (b ≠ 10 → 80 ≤ w.column_position →
      (w.write_byte b).column_position = 1 ∧
      (w.write_byte b).color_code = w.color_code ∧
      ∀ r c, (w.write_byte b).buffer r c =
        if r = 24 ∧ c = 0 then { ascii_character := b, color_code := w.color_code }
        else w.new_line.buffer r c) ∧
    (b ≠ 10 → w.column_position < 80 →
      (w.write_byte b).column_position = w.column_position + 1 ∧
      (w.write_byte b).color_code = w.color_code ∧
      ∀ r c, (w.write_byte b).buffer r c =
        if r = 24 ∧ c = w.column_position then
          { ascii_character := b, color_code := w.color_code }
        else w.buffer r c) := by
  refine ⟨?_, ?_, ?_⟩
  · intro hb
    subst hb
    exact Writer.write_byte_newline w
  · intro hb hcol
    rw [Writer.write_byte_scroll w b hb hcol]
    exact ⟨rfl, rfl, fun r c => rfl⟩
  · intro hb hcol
    rw [Writer.write_byte_no_scroll w b hb hcol]
    exact ⟨rfl, rfl, fun r c => rfl⟩

/-- Witness for C1 at a concrete input: writing the A byte from the initial
state appends at column 0 and moves the column to 1. -/
theorem C1_witness :
    (initialWriter.write_byte 65).column_position = initialWriter.column_position + 1 ∧
    (initialWriter.write_byte 65).color_code = initialWriter.color_code ∧
    ∀ r c, (initialWriter.write_byte 65).buffer r c =
      if r = 24 ∧ c = initialWriter.column_position then
        { ascii_character := 65, color_code := initialWriter.color_code }
      else initialWriter.buffer r c :=
  (C1_write_byte_cases initialWriter 65).2.2 (by decide) (by decide)

/-- C2: new_line copies, in increasing row order, each row r of 1..24 into
row r-1 (so the prior content of row r is the new content of row r-1),
then writes a blank cell in the scroll-time color into every column of
row 24, and resets the cursor column to 0. -/
theorem C2_new_line_scroll (w : Writer) (r c : Nat) (hr1 : 1 ≤ r) (hr2 : r ≤ 24)
    (hc : c < 80) :
    w.new_line.buffer (r - 1) c = w.buffer r c ∧
    w.new_line.buffer 24 c = { ascii_character := 32, color_code := w.color_code } ∧
    w.new_line.column_position = 0 := by
  refine ⟨?_, ?_, rfl⟩
  · rw [Writer.new_line_buffer, if_neg (by omega), if_pos (by omega)]
    rw [show r - 1 + 1 = r from by omega]
  · rw [Writer.new_line_buffer, if_pos ⟨rfl, hc⟩]

/-- Witness for C2 at a concrete input: scrolling the initial writer moves
row 1 column 5 into row 0 column 5, blanks row 24, and resets the column. -/
theorem C2_witness :
    initialWriter.new_line.buffer 0 5 = initialWriter.buffer 1 5 ∧
    initialWriter.new_line.buffer 24 5 =
      { ascii_character := 32, color_code := initialWriter.color_code } ∧
    initialWriter.new_line.column_position = 0 :=
  C2_new_line_scroll initialWriter 1 5 (by decide) (by decide) (by decide)

/-- C3: write_string iterates the bytes of its input in order; each byte in
the printable range 0x20..0x7e or equal to the newline byte is forwarded
unchanged to write_byte, and every other byte is forwarded as the sentinel
0xfe instead. -/
theorem C3_write_string_classifies (w : Writer) (b : Nat) (rest : List Nat) :
    (w.write_string [] = w) ∧
    (((0x20 ≤ b ∧ b ≤ 0x7e) ∨ b = 10) →
      w.write_string (b :: rest) = (w.write_byte b).write_string rest) ∧
    (¬ ((0x20 ≤ b ∧ b ≤ 0x7e) ∨ b = 10) →
      w.write_string (b :: rest) = (w.write_byte 0xfe).write_string rest) :=
  ⟨Writer.write_string_nil w,
    Writer.write_string_cons_printable w b rest,
    Writer.write_string_cons_other w b rest⟩

/-- Witness for C3 at a concrete input: the NUL byte is replaced by 0xfe. -/
theorem C3_witness :
    initialWriter.write_string (0 :: []) = (initialWriter.write_byte 0xfe).write_string [] :=
  (C3_write_string_classifies initialWriter 0 []).2.2 (by decide)

/-- Writing a non-newline byte from a full row (column exactly 80): the
column ends at 1 and the byte lands at (24, 0) over the scrolled buffer. -/
lemma Writer.write_byte_full_row (w : Writer) (b : Nat) (hb : b ≠ 10)
    (hcol : w.column_position = 80) :
    (w.write_byte b).column_position = 1 ∧
    ∀ r c, (w.write_byte b).buffer r c =
      if r = 24 ∧ c = 0 then { ascii_character := b, color_code := w.color_code }
      else w.new_line.buffer r c := by
  rw [Writer.write_byte_scroll w b hb hcol.ge]
  exact ⟨rfl, fun r c => rfl⟩

/-- C4: from any state with column at most 80, a non-newline write_byte
issues its single cell write at row 24 and at a column strictly below 80;
and writing exactly 81 printable bytes from column 0 triggers exactly one
scroll, after which the 81st byte sits at column 0 of row 24 and the column
is 1. -/
theorem C4_no_write_past_79 :
    (∀ (w : Writer) (b : Nat), w.column_position ≤ 80 → b ≠ 10 →
      ∃ col, col < 80 ∧
        (w.write_byte b).buffer =
          (if 80 ≤ w.column_position then w.new_line else w).buffer.writeCell 24 col
            { ascii_character := b, color_code := w.color_code }) ∧
    (∀ (w : Writer) (bs : List Nat), w.column_position = 0 → bs.length = 81 →
      (∀ x ∈ bs, 0x20 ≤ x ∧ x ≤ 0x7e) →
      w.scrolls_in bs = 1 ∧
      (w.write_string bs).buffer 24 0 =
        { ascii_character := bs.getD 80 0, color_code := w.color_code } ∧
      (w.write_string bs).column_position = 1) := by
  constructor
  · intro w b hle hb
    by_cases h : 80 ≤ w.column_position
    · refine ⟨0, by omega, ?_⟩
      rw [Writer.write_byte_scroll w b hb h, if_pos h]
    · refine ⟨w.column_position, by omega, ?_⟩
      rw [Writer.write_byte_no_scroll w b hb (by omega), if_neg h]
  · intro w bs hcol0 hlen hprint
    have h80 : bs.take 80 ++ bs.drop 80 = bs := List.take_append_drop 80 bs
    have hlen1 : (bs.take 80).length = 80 := by
      rw [List.length_take, hlen]
      omega
    have hlen2 : (bs.drop 80).length = 1 := by
      rw [List.length_drop, hlen]
    obtain ⟨x, hx⟩ := List.length_eq_one.mp hlen2
    have hnn1 : ∀ y ∈ bs.take 80, y ≠ 10 := by
      intro y hy
      have := hprint y (List.take_subset 80 bs hy)
      omega
    have hxmem : x ∈ bs :=
      List.drop_subset 80 bs (by rw [hx]; exact List.mem_singleton_self x)
    have hx10 : x ≠ 10 := by
      have := hprint x hxmem
      omega
    obtain ⟨hc1, hcolor1, hbuf1⟩ :=
      Writer.foldl_write_byte_fits (bs.take 80) w hnn1 (by rw [hcol0, hlen1])
    have hW80col : ((bs.take 80).foldl Writer.write_byte w).column_position = 80 := by
      rw [hc1, hlen1, hcol0]
    have hws : w.write_string bs = ((bs.take 80).foldl Writer.write_byte w).write_byte x := by
      rw [Writer.write_string_printable bs w (fun y hy => Or.inl (hprint y hy))]
      conv_lhs => rw [← h80]
      rw [List.foldl_append, hx]
      rfl
    have hgetD : bs.getD 80 0 = x := by
      conv_lhs => rw [← h80, hx]
      rw [List.getD_append_right _ _ _ _ hlen1.le, hlen1]
      rfl
    have hscroll :=
      Writer.write_byte_scroll ((bs.take 80).foldl Writer.write_byte w) x hx10 hW80col.ge
    refine ⟨?_, ?_, ?_⟩
    · have hz : w.scrolls_in (bs.take 80) = 0 :=
        Writer.scrolls_in_zero (bs.take 80) w hnn1 (by rw [hcol0, hlen1])
      have hone : ((bs.take 80).foldl Writer.write_byte w).scrolls_in [x] = 1 := by
        show (if x = 10 ∨ 80 ≤ ((bs.take 80).foldl Writer.write_byte w).column_position
            then 1 else 0) +
          (((bs.take 80).foldl Writer.write_byte w).write_byte x).scrolls_in [] = 1
        rw [if_pos (Or.inr hW80col.ge)]
        rfl
      calc w.scrolls_in bs
          = w.scrolls_in (bs.take 80 ++ bs.drop 80) := by rw [h80]
        _ = w.scrolls_in (bs.take 80) +
              ((bs.take 80).foldl Writer.write_byte w).scrolls_in (bs.drop 80) :=
            Writer.scrolls_in_append _ _ w
        _ = 0 + ((bs.take 80).foldl Writer.write_byte w).scrolls_in [x] := by rw [hz, hx]
        _ = 1 := by rw [hone]
    · rw [hws, hscroll]
      show ScreenChar.mk x ((bs.take 80).foldl Writer.write_byte w).color_code =
        ScreenChar.mk (bs.getD 80 0) w.color_code
      rw [hcolor1, hgetD]
    · rw [hws, hscroll]

/-- Witness for C4 at a concrete input: the first byte written from the
initial state lands at a column below 80. -/
theorem C4_witness :
    ∃ col, col < 80 ∧
      (initialWriter.write_byte 65).buffer =
        (if 80 ≤ initialWriter.column_position then initialWriter.new_line
          else initialWriter).buffer.writeCell 24 col
          { ascii_character := 65, color_code := initialWriter.color_code } :=
  C4_no_write_past_79.1 initialWriter 65 (by decide) (by decide)

/-- C5 counterexample: the state reached from the initial state by writing
eighty printable bytes is reachable yet has column 80, violating
column < 80. -/
theorem C5_counterexample :
    Reachable (initialWriter.write_string (List.replicate 80 65)) ∧
    ¬ (initialWriter.write_string (List.replicate 80 65)).column_position < 80 := by
  refine ⟨Reachable.step_string _ _ (Reachable.init _ rfl), ?_⟩
  rw [col_after_80]
  omega

/-- C5 (amended): in every writer state reachable from an initial state
(column 0) by write_byte and write_string operations, the cursor column is
at most 80 (the bound 80 itself is reached, so the strict bound of the
original claim does not hold). -/
theorem C5_column_le (w : Writer) (h : Reachable w) : w.column_position ≤ 80 := by
  induction h with
  | init w h0 => omega
  | step_byte w b _ ih => exact Writer.write_byte_column_le w b ih
  | step_string w s _ ih => exact Writer.write_string_column_le s w ih

/-- Witness for C5 at a concrete input: one write_byte from the initial
state stays within the bound. -/
theorem C5_witness : (initialWriter.write_byte 65).column_position ≤ 80 :=
  C5_column_le _ (Reachable.step_byte _ _ (Reachable.init _ rfl))

/-- C6 counterexample: after writing eighty A bytes and one B byte from a
freshly cleared grid, row 23 is not blank — its column 0 holds the A byte,
because new_line copies row 24 into row 23 before clearing row 24. -/
theorem C6_counterexample :
    (initialWriter.write_string (List.replicate 80 65 ++ [66])).buffer 23 0 =
      { ascii_character := 65, color_code := yellowOnBlack } ∧
    ({ ascii_character := 65, color_code := yellowOnBlack } : ScreenChar) ≠
      { ascii_character := 32, color_code := initialWriter.color_code } := by
  constructor
  · decide
  · decide

/-- C6 (amended): writing eighty A bytes then one B byte from a freshly
cleared grid leaves row 23 holding the eighty A cells (the pre-scroll row 24
content, moved up by the scroll), leaves the new row 24 blank except for the
B byte at column 0, and leaves the cursor column at 1. -/
theorem C6_scenario :
    ((initialWriter.write_string (List.replicate 80 65 ++ [66])).column_position = 1) ∧
    (∀ c, c < 80 →
      (initialWriter.write_string (List.replicate 80 65 ++ [66])).buffer 23 c =
        { ascii_character := 65, color_code := yellowOnBlack }) ∧
    ((initialWriter.write_string (List.replicate 80 65 ++ [66])).buffer 24 0 =
      { ascii_character := 66, color_code := yellowOnBlack }) ∧
    (∀ c, 1 ≤ c → c < 80 →
      (initialWriter.write_string (List.replicate 80 65 ++ [66])).buffer 24 c =
        { ascii_character := 32, color_code := yellowOnBlack }) := by
  have hp : ∀ y ∈ List.replicate 80 65 ++ [66], (0x20 ≤ y ∧ y ≤ 0x7e) ∨ y = 10 := by
    intro y hy
    rcases List.mem_append.mp hy with h | h
    · exact replicate_A_printable y h
    · rw [List.mem_singleton.mp h]
      left
      exact ⟨by omega, by omega⟩
  have hws : initialWriter.write_string (List.replicate 80 65 ++ [66]) =
      ((List.replicate 80 65).foldl Writer.write_byte initialWriter).write_byte 66 := by
    rw [Writer.write_string_printable _ initialWriter hp, List.foldl_append]
    rfl
  obtain ⟨hc1, hcolor1, hbuf1⟩ := Writer.foldl_write_byte_fits (List.replicate 80 65)
    initialWriter replicate_A_not_newline (by decide)
  have hinit : initialWriter.column_position = 0 := rfl
  have hlenrep : (List.replicate 80 65).length = 80 := List.length_replicate 80 65
  have hW80col :
      ((List.replicate 80 65).foldl Writer.write_byte initialWriter).column_position = 80 := by
    rw [hc1, hinit, hlenrep]
  obtain ⟨hcolF, hbufF⟩ :=
    Writer.write_byte_full_row ((List.replicate 80 65).foldl Writer.write_byte initialWriter)
      66 (by omega) hW80col
  rw [hws]
  refine ⟨hcolF, ?_, ?_, ?_⟩
  · intro c hc
    rw [hbufF 23 c, if_neg (by omega), Writer.new_line_buffer, if_neg (by omega),
      if_pos ⟨by omega, hc⟩]
    rw [hbuf1 24 c, if_pos ⟨rfl, by omega, by omega⟩, hinit, Nat.sub_zero,
      replicate_getD 65 0 80 c hc]
    rfl
  · rw [hbufF 24 0, if_pos ⟨rfl, rfl⟩, hcolor1]
    rfl
  · intro c h1c hc
    rw [hbufF 24 c, if_neg (by omega), Writer.new_line_buffer, if_pos ⟨rfl, hc⟩, hcolor1]
    rfl

/-- Witness for C6 at a concrete cell: column 0 of row 23 holds the A byte
after the scenario. -/
theorem C6_witness :
    (initialWriter.write_string (List.replicate 80 65 ++ [66])).buffer 23 7 =
      { ascii_character := 65, color_code := yellowOnBlack } :=
  C6_scenario.2.1 7 (by decide)

/-- C7: writing a sequence of at most 80 printable bytes (no newlines) via
write_string from a state with column 0 places the bytes in order in the
bottom row's first cells, each in the writer's current color, leaves the
cursor column equal to the length, and changes no other cell. -/
theorem C7_write_string_row (w : Writer) (bs : List Nat)
    (hp : ∀ b ∈ bs, 0x20 ≤ b ∧ b ≤ 0x7e) (hlen : bs.length ≤ 80)
    (hcol : w.column_position = 0) :
    (w.write_string bs).column_position = bs.length ∧
    (w.write_string bs).color_code = w.color_code ∧
    (∀ i, i < bs.length →
      (w.write_string bs).buffer 24 i =
        { ascii_character := bs.getD i 0, color_code := w.color_code }) ∧
    (∀ c, bs.length ≤ c → (w.write_string bs).buffer 24 c = w.buffer 24 c) ∧
    (∀ r c, r ≠ 24 → (w.write_string bs).buffer r c = w.buffer r c) := by
  have hnn : ∀ b ∈ bs, b ≠ 10 := by
    intro b hb
    have := hp b hb
    omega
  rw [Writer.write_string_printable bs w (fun b hb => Or.inl (hp b hb))]
  obtain ⟨h1, h2, h3⟩ := Writer.foldl_write_byte_fits bs w hnn (by omega)
  refine ⟨by rw [h1, hcol, Nat.zero_add], h2, ?_, ?_, ?_⟩
  · intro i hi
    rw [h3 24 i, if_pos ⟨rfl, by omega, by omega⟩, hcol, Nat.sub_zero]
  · intro c hc
    rw [h3 24 c, if_neg (by omega)]
  · intro r c hr
    rw [h3 r c, if_neg (by omega)]

/-- Witness for C7 at the spec's concrete input: writing the Hello World
bytes from the initial state fills columns 0..11 of row 24 and leaves the
column at 12. -/
theorem C7_witness :
    (initialWriter.write_string helloBytes).column_position = helloBytes.length ∧
    (initialWriter.write_string helloBytes).color_code = initialWriter.color_code ∧
    (∀ i, i < helloBytes.length →
      (initialWriter.write_string helloBytes).buffer 24 i =
        { ascii_character := helloBytes.getD i 0, color_code := initialWriter.color_code }) ∧
    (∀ c, helloBytes.length ≤ c →
      (initialWriter.write_string helloBytes).buffer 24 c = initialWriter.buffer 24 c) ∧
    (∀ r c, r ≠ 24 →
      (initialWriter.write_string helloBytes).buffer r c = initialWriter.buffer r c) :=
  C7_write_string_row initialWriter helloBytes (by decide) (by decide) rfl

/-- C8: ColorCode.new is total and pure and produces exactly the byte with
the background index in bits 4..7 and the foreground index in bits 0..3,
both nibbles being valid color indices in 0..15. -/
theorem C8_color_code_compose (fg bg : Color) :
    (ColorCode.new fg bg).val = ((bg.toU8 <<< 4) ||| fg.toU8) ∧
    (ColorCode.new fg bg).val % 16 = fg.toU8 ∧
    (ColorCode.new fg bg).val / 16 = bg.toU8 ∧
    fg.toU8 ≤ 15 ∧ bg.toU8 ≤ 15 := by
  cases fg <;> cases bg <;> decide

/-- C9: the formatted-output path never fails: write_str always returns Ok,
so the unwrap in the print entry point never panics and printing always
succeeds. -/
theorem C9_write_str_ok (w : Writer) (s : List Nat) :
    (w.write_str s).2 = Except.ok () ∧ print_entry w s = some (w.write_string s) :=
  ⟨rfl, rfl⟩

/-- C10: column ≤ 80 is preserved by write_byte, write_string and new_line;
the value 80 is actually reached after filling a row; and a non-newline
write_byte from a full row scrolls first, so the cell write goes to
column 0 and the column ends at 1 — column 80 never persists across a cell
write. -/
theorem C10_column_bound :
    (∀ (w : Writer) (b : Nat), w.column_position ≤ 80 →
      (w.write_byte b).column_position ≤ 80) ∧
    (∀ (w : Writer) (s : List Nat), w.column_position ≤ 80 →
      (w.write_string s).column_position ≤ 80) ∧
    (∀ w : Writer, w.new_line.column_position ≤ 80) ∧
    ((initialWriter.write_string (List.replicate 80 65)).column_position = 80) ∧
    (∀ (w : Writer) (b : Nat), b ≠ 10 → w.column_position = 80 →
      (w.write_byte b).column_position = 1 ∧
      (w.write_byte b).buffer = w.new_line.buffer.writeCell 24 0
        { ascii_character := b, color_code := w.color_code }) := by
  refine ⟨Writer.write_byte_column_le, fun w s => Writer.write_string_column_le s w, ?_,
    col_after_80, ?_⟩
  · intro w
    rw [Writer.new_line_column]
    omega
  · intro w b hb hcol
    rw [Writer.write_byte_scroll w b hb hcol.ge]
    exact ⟨rfl, rfl⟩

/-- Witness for C10 at a concrete input: a newline from the initial state
keeps the column within the bound. -/
theorem C10_witness : (initialWriter.write_byte 10).column_position ≤ 80 :=
  C10_column_bound.1 initialWriter 10 (by decide)

end VgaBuffer
